import Mathlib

/-!
# room_crawler: diff detection, orchestration and notification rendering

A shallow embedding of `src/src/room_crawler.go`.

* Go strings are Lean `String`s (sequences of Unicode characters, so only valid UTF-8 text
  is covered); a Go `error` value is represented by its `Error()` text, and a nil error by
  `none`.
* The collaborators (page fetch, spreadsheet read and write, webhook post) are functions on
  an abstract world state; `Execute` also records the calls it makes.  Console output is not
  modelled.
* A Go slice is `Slice α`: `none` is the nil slice, `some l` a non-nil slice holding `l`.
  `reflect.DeepEqual` tells the two apart, so the embedding keeps them apart too.
* A Go `map[string]room` is an association list with pairwise distinct keys.  The order in
  which `range` visits a map is not specified by the language; it is a parameter
  (`MapOrder`) of every function that ranges over a map.
-/

namespace RoomCrawler

/-! ## Data model (`room_crawler.go`, lines 20-39) -/

/-- One scraped listing (`room`). -/
structure room where
  id : String
  title : String
  price : String
  layout : String
  size : String
deriving DecidableEq

/-- A listing of the current run together with the stored listing of the same id (`roomPair`). -/
structure roomPair where
  new : room
  old : room
deriving DecidableEq

/-- A Go slice value: `none` is the nil slice, `some l` a non-nil slice with elements `l`. -/
abbrev Slice (α : Type) : Type := Option (List α)

/-- Go `append(s, x)`: appending to the nil slice allocates a one-element slice. -/
def Slice.append {α : Type} (s : Slice α) (x : α) : Slice α :=
  match s with
  | none => some [x]
  | some l => some (l ++ [x])

/-- The elements visited by `for _, x := range s`; the nil slice has none. -/
def Slice.toList {α : Type} (s : Slice α) : List α :=
  match s with
  | none => []
  | some l => l

/-- Go `len(s)`; the nil slice has length 0. -/
def Slice.len {α : Type} (s : Slice α) : Nat :=
  match s with
  | none => 0
  | some l => l.length

/-- The result record of diff detection (`diff`); the zero value has three nil slices. -/
structure diff where
  newRooms : Slice room := none
  updatedRoomPairs : Slice roomPair := none
  removedRooms : Slice room := none
deriving DecidableEq

/-! ## `reflect.DeepEqual` on the types used by the program -/

/-- `reflect.DeepEqual` on two `room` structs: every field is compared, strings by `==`. -/
def deepEqualRoom (a b : room) : Bool :=
  a.id == b.id && a.title == b.title && a.price == b.price && a.layout == b.layout
    && a.size == b.size

/-- `reflect.DeepEqual` on two `roomPair` structs. -/
def deepEqualRoomPair (a b : roomPair) : Bool :=
  deepEqualRoom a.new b.new && deepEqualRoom a.old b.old

/-- Element-wise comparison of two lists that are known to have the same length. -/
def deepEqualElems {α : Type} (eq : α → α → Bool) : List α → List α → Bool
  | [], [] => true
  | x :: xs, y :: ys => eq x y && deepEqualElems eq xs ys
  | _, _ => false

/-- `reflect.DeepEqual` on two slices: both nil, or both non-nil with the same length and
deeply equal elements.  A nil slice and an empty non-nil slice are not deeply equal. -/
def deepEqualSlice {α : Type} (eq : α → α → Bool) (s t : Slice α) : Bool :=
  match s, t with
  | none, none => true
  | some a, some b => a.length == b.length && deepEqualElems eq a b
  | _, _ => false

/-- `reflect.DeepEqual` on two `diff` structs. -/
def deepEqualDiff (a b : diff) : Bool :=
  deepEqualSlice deepEqualRoom a.newRooms b.newRooms
    && deepEqualSlice deepEqualRoomPair a.updatedRoomPairs b.updatedRoomPairs
    && deepEqualSlice deepEqualRoom a.removedRooms b.removedRooms

/-- Method `roomPair.hasDiff` (lines 306-308). -/
def roomPair.hasDiff (p : roomPair) : Bool :=
  !deepEqualRoom p.new p.old

/-! ## Go maps keyed by the listing id -/

/-- A `map[string]room`: its entries, with pairwise distinct keys. -/
abbrev GoMap : Type := List (String × room)

/-- The comma-ok lookup `v, ok := m[k]`: `some v` when the key is present. -/
def GoMap.get (m : GoMap) (k : String) : Option room :=
  List.lookup k m

/-- Go `delete(m, k)`. -/
def GoMap.delete (m : GoMap) (k : String) : GoMap :=
  m.filter (fun e => e.1 != k)

/-- The assignment `m[k] = v`: an existing entry for `k` is replaced. -/
def GoMap.set (m : GoMap) (k : String) (v : room) : GoMap :=
  m.delete k ++ [(k, v)]

/-- An iteration order for `range` over a map: any rearrangement of the entries. -/
structure MapOrder where
  order : GoMap → GoMap
  perm : ∀ m : GoMap, (order m).Perm m

/-- The iteration order that visits the entries as stored. -/
def MapOrder.stored : MapOrder := ⟨fun m => m, fun m => List.Perm.refl m⟩

/-- The iteration order that visits the entries back to front. -/
def MapOrder.reversed : MapOrder := ⟨fun m => m.reverse, fun m => List.reverse_perm m⟩

/-! ## `detectDiff` (lines 176-204) -/

/-- Lines 178-181: the lookup from id to stored listing. -/
def buildPreviousRoomsMap (previousRooms : List room) : GoMap :=
  previousRooms.foldl (fun m pRoom => m.set pRoom.id pRoom) []

/-- The body of the loop over `rooms` (lines 184-192), acting on the diff under construction
and the lookup. -/
def matchRoom (st : diff × GoMap) (r : room) : diff × GoMap :=
  match st.2.get r.id with
  | some pRoom =>
    let p : roomPair := { new := r, old := pRoom }
    let d := if p.hasDiff then
        { st.1 with updatedRoomPairs := st.1.updatedRoomPairs.append p }
      else st.1
    (d, st.2.delete r.id)
  | none => ({ st.1 with newRooms := st.1.newRooms.append r }, st.2)

/-- Lines 195-197: every listing left in the lookup is appended to `removedRooms`, in the
map's iteration order. -/
def collectRemoved (ord : MapOrder) (d : diff) (m : GoMap) : diff :=
  (ord.order m).foldl (fun acc e => { acc with removedRooms := acc.removedRooms.append e.2 }) d

/-- Lines 177-197: the `diff` value `*d` as it stands when the final test is reached. -/
def computedDiff (ord : MapOrder) (rooms previousRooms : List room) : diff :=
  let st := rooms.foldl matchRoom (({} : diff), buildPreviousRoomsMap previousRooms)
  collectRemoved ord st.1 st.2

/-- Function `detectDiff`: `none` is the nil pointer. -/
def detectDiff (ord : MapOrder) (rooms previousRooms : List room) : Option diff :=
  let d := computedDiff ord rooms previousRooms
  if deepEqualDiff d {} then none else some d

/-- The tri-list emptiness check of the specification's Diff entity. -/
def diff.isEmpty (d : diff) : Bool :=
  d.newRooms.len == 0 && d.updatedRoomPairs.len == 0 && d.removedRooms.len == 0

/-- Diff detection as the specification words it: the same computation, with the explicit
tri-list emptiness check deciding whether the empty-marker is returned. -/
def detectDiffTriList (ord : MapOrder) (rooms previousRooms : List room) : Option diff :=
  let d := computedDiff ord rooms previousRooms
  if d.isEmpty then none else some d

/-- The `added` collection of a detection result; the empty-marker carries none. -/
def addedOf (res : Option diff) : List room :=
  match res with
  | none => []
  | some d => d.newRooms.toList

/-- The `updated` collection of a detection result. -/
def updatedOf (res : Option diff) : List roomPair :=
  match res with
  | none => []
  | some d => d.updatedRoomPairs.toList

/-- The `removed` collection of a detection result. -/
def removedOf (res : Option diff) : List room :=
  match res with
  | none => []
  | some d => d.removedRooms.toList

/-! ## Slack payloads (lines 245-304) -/

/-- The inner `"text"` object of a layout block: `{"type": ..., "text": ...}`. -/
structure TextObject where
  type : String
  text : String
deriving DecidableEq

/-- One layout block: `{"type": ..., "text": {...}}`. -/
structure Block where
  type : String
  text : TextObject
deriving DecidableEq

/-- The value handed to `json.Marshal` under the key `"blocks"`: `newDiffSlackLayoutBlocks`
stores a list of blocks there, `NotifyError` a single block object. -/
inductive Payload where
  | blockList (blocks : List Block)
  | singleBlock (block : Block)
deriving DecidableEq

/-- Method `room.url` (lines 245-247); `%s` is replaced by the string operand. -/
def room.url (r : room) : String :=
  "https://www.fudousan.or.jp/property/detail?p_no=" ++ r.id

/-- The block appended for one element of `d.newRooms` (lines 254-268). -/
def newRoomBlock (newRoom : room) : Block :=
  { type := "section",
    text := { type := "mrkdwn",
              text := "New: " ++ newRoom.title ++ "\n" ++ newRoom.price ++ " " ++ newRoom.layout
                ++ " " ++ newRoom.size ++ "\n" ++ newRoom.url } }

/-- The block appended for one element of `d.updatedRoomPairs` (lines 274-286). -/
def updatedRoomBlock (p : roomPair) : Block :=
  { type := "section",
    text := { type := "mrkdwn",
              text := "Updated: " ++ p.new.title ++ "\n" ++ p.new.price ++ "\n" ++ p.new.url } }

/-- The block appended for one element of `d.removedRooms` (lines 292-299). -/
def removedRoomBlock (removedRoom : room) : Block :=
  { type := "section",
    text := { type := "mrkdwn", text := "Removed: " ++ removedRoom.title } }

/-- Function `newDiffSlackLayoutBlocks`, up to the call of `json.Marshal`: the three guarded
loops appending to `blocks`. -/
def newDiffSlackLayoutBlocks (d : diff) : Payload :=
  let blocks : List Block := []
  let blocks :=
    if d.newRooms.len > 0 then
      d.newRooms.toList.foldl (fun bs newRoom => bs ++ [newRoomBlock newRoom]) blocks
    else blocks
  let blocks :=
    if d.updatedRoomPairs.len > 0 then
      d.updatedRoomPairs.toList.foldl (fun bs p => bs ++ [updatedRoomBlock p]) blocks
    else blocks
  let blocks :=
    if d.removedRooms.len > 0 then
      d.removedRooms.toList.foldl (fun bs removedRoom => bs ++ [removedRoomBlock removedRoom])
        blocks
    else blocks
  Payload.blockList blocks

/-- The blocks a payload carries. -/
def Payload.blocks (p : Payload) : List Block :=
  match p with
  | Payload.blockList bs => bs
  | Payload.singleBlock b => [b]

/-! ## `fmt.Sprintf` called with a format and no operands

`NotifyError` passes the error text to `fmt.Sprintf` as the format string.  The functions
below follow `doPrintf` of Go's `fmt` package for an empty operand list: literal text is
copied, and every `%` starts a directive (flags, argument index, width, precision, verb)
that is rendered without an operand. -/

/-- Go `tooLarge`: the bound on widths, precisions and argument indices. -/
def tooLarge (x : Nat) : Bool := decide (1000000 < x)

/-- The loop of Go `parsenum` over the region `s[newi:end]`; the third component is what is
left of the region.  On overflow the scan gives up and jumps to the end of the region. -/
def parsenumLoop : Nat → Bool → List Char → Nat × Bool × List Char
  | num, isnum, [] => (num, isnum, [])
  | num, isnum, c :: cs =>
    if '0' ≤ c ∧ c ≤ '9' then
      if tooLarge num then (0, false, [])
      else parsenumLoop (num * 10 + (c.toNat - '0'.toNat)) true cs
    else (num, isnum, c :: cs)

/-- Go `parsenum(s, start, end)` on the region `s[start:end]`. -/
def parsenum (region : List Char) : Nat × Bool × List Char :=
  parsenumLoop 0 false region

/-- The flag loop of `doPrintf`: the characters `#0+- ` are consumed.  With no operand the
fast path for simple verbs is never taken. -/
def skipFlags : List Char → List Char
  | [] => []
  | c :: cs =>
    if c = '#' ∨ c = '0' ∨ c = '+' ∨ c = '-' ∨ c = ' ' then skipFlags cs else c :: cs

/-- The length in bytes of the UTF-8 encoding of a sequence of characters. -/
def byteLen (cs : List Char) : Nat :=
  (cs.map Char.utf8Size).sum

/-- Go `parseArgNumber` on a format that starts with `[`, given the text after the bracket:
the text left after the `wid` bytes it reports, and whether an index was parsed. -/
def parseArgNumber (afterBracket : List Char) : List Char × Bool :=
  if 1 + byteLen afterBracket < 3 then (afterBracket, false)
  else
    let inside := afterBracket.takeWhile (fun c => c != ']')
    if inside.length < afterBracket.length then
      let r := parsenum inside
      (afterBracket.drop (inside.length + 1), r.2.1 && r.2.2.isEmpty)
    else (afterBracket, false)

/-- Go `argNumber` with `numArgs = 0`: the remaining format, the `found` result, and the new
value of `goodArgNum`.  No index is below the operand count, so a bracket always clears
`goodArgNum`. -/
def argNumber (cs : List Char) (goodArgNum : Bool) : List Char × Bool × Bool :=
  match cs with
  | '[' :: rest =>
    let r := parseArgNumber rest
    (r.1, r.2, false)
  | _ => (cs, false, goodArgNum)

/-- The width step of a directive: output written, remaining format, `afterIndex`,
`goodArgNum`. -/
def widthStep (cs : List Char) (afterIndex goodArgNum : Bool) :
    String × List Char × Bool × Bool :=
  match cs with
  | '*' :: rest => ("%!(BADWIDTH)", rest, false, goodArgNum)
  | _ =>
    let r := parsenum cs
    ("", r.2.2, afterIndex, goodArgNum && !(afterIndex && r.2.1))

/-- The precision step of a directive. -/
def precisionStep (cs : List Char) (afterIndex goodArgNum : Bool) :
    String × List Char × Bool × Bool :=
  match cs with
  | '.' :: rest =>
    let a := argNumber rest (goodArgNum && !afterIndex)
    match a.1 with
    | '*' :: rest2 => ("%!(BADPREC)", rest2, false, a.2.2)
    | _ => ("", (parsenum a.1).2.2, a.2.1, a.2.2)
  | _ => ("", cs, afterIndex, goodArgNum)

/-- The verb step: `%%` prints a percent sign, any other verb reports a bad index or a
missing operand, and a format that ends inside the directive reports the missing verb. -/
def verbStep (cs : List Char) (goodArgNum : Bool) : String × List Char :=
  match cs with
  | [] => ("%!(NOVERB)", [])
  | verb :: rest =>
    if verb = '%' then ("%", rest)
    else if !goodArgNum then ("%!" ++ String.singleton verb ++ "(BADINDEX)", rest)
    else ("%!" ++ String.singleton verb ++ "(MISSING)", rest)

/-- One directive of `doPrintf`, given the format after the `%`: the text written and the
format left to process. -/
def directive (cs : List Char) : String × List Char :=
  let a := argNumber (skipFlags cs) true
  let w := widthStep a.1 a.2.1 a.2.2
  let p := precisionStep w.2.1 w.2.2.1 w.2.2.2
  let b := if !p.2.2.1 then argNumber p.2.1 p.2.2.2 else (p.2.1, p.2.2.1, p.2.2.2)
  let v := verbStep b.1 b.2.2
  (w.1 ++ p.1 ++ v.1, v.2)

/-- The format loop of `doPrintf`; every round consumes at least one character, so as many
rounds as the format has characters always suffice. -/
def doPrintf : Nat → List Char → String
  | 0, _ => ""
  | _ + 1, [] => ""
  | n + 1, c :: cs =>
    if c = '%' then
      let r := directive cs
      r.1 ++ doPrintf n r.2
    else String.singleton c ++ doPrintf n cs

/-- Go `fmt.Sprintf(format)` with no operands. -/
def Sprintf (format : String) : String :=
  doPrintf format.length format.toList

/-! ## `NotifyError` (lines 85-97) and `notifyDiff` (lines 206-213) -/

/-- The value `NotifyError` hands to `json.Marshal`. -/
def notifyErrorPayload (err : String) : Payload :=
  Payload.singleBlock
    { type := "section", text := { type := "mrkdwn", text := Sprintf err } }

/-- The collaborators of a run, acting on a world state `σ`: an error result is `some` of its
text, a nil error is `none`. -/
structure World (σ : Type) where
  fetchAllRooms : String → σ → Except String (List room) × σ
  loadPreviousRooms : σ → Except String (List room) × σ
  notifySlack : Payload → σ → Option String × σ
  saveRooms : List room → σ → Option String × σ

/-- Function `NotifyError`.  `json.Marshal` cannot fail on maps of strings, so its error
branch is not reachable. -/
def NotifyError {σ : Type} (w : World σ) (err : String) (s : σ) : Option String × σ :=
  w.notifySlack (notifyErrorPayload err) s

/-- Function `notifyDiff`; the console print of the payload is not modelled. -/
def notifyDiff {σ : Type} (w : World σ) (d : diff) (s : σ) : Option String × σ :=
  w.notifySlack (newDiffSlackLayoutBlocks d) s

/-! ## `Execute` (lines 53-82) -/

/-- The calls `Execute` makes to its collaborators, in the order made. -/
inductive Call where
  | fetchAllRooms (url : String)
  | loadPreviousRooms
  | notifyDiff (d : diff)
  | saveRooms (rooms : List room)
deriving DecidableEq

/-- What a run leaves behind: the calls made, the final world state, and the returned
error (`none` for nil). -/
structure Run (σ : Type) where
  calls : List Call
  world : σ
  err : Option String

/-- Lines 70-81: notify, then save, then join the texts of the errors met. -/
def notifyAndSave {σ : Type} (w : World σ) (rooms : List room) (d : diff) (s : σ) : Run σ :=
  let errTexts : List String := []
  let n := notifyDiff w d s
  let errTexts :=
    match n.1 with
    | some e => errTexts ++ ["failed to notify diff: " ++ e]
    | none => errTexts
  let v := w.saveRooms rooms n.2
  let errTexts :=
    match v.1 with
    | some e => errTexts ++ ["failed to save rooms: " ++ e]
    | none => errTexts
  { calls := [Call.notifyDiff d, Call.saveRooms rooms],
    world := v.2,
    err := if errTexts.length = 0 then none else some (String.intercalate "\n" errTexts) }

/-- Function `Execute`.  `roomsURL` is the package variable of that name; `ord` is the order
in which `detectDiff` ranges over its lookup. -/
def Execute {σ : Type} (w : World σ) (ord : MapOrder) (roomsURL : String) (s : σ) : Run σ :=
  match w.fetchAllRooms roomsURL s with
  | (Except.error e, s1) =>
    { calls := [Call.fetchAllRooms roomsURL], world := s1,
      err := some ("failed to fetch rooms: " ++ e) }
  | (Except.ok rooms, s1) =>
    match w.loadPreviousRooms s1 with
    | (Except.error e, s2) =>
      { calls := [Call.fetchAllRooms roomsURL, Call.loadPreviousRooms], world := s2,
        err := some ("failed to load previous rooms: " ++ e) }
    | (Except.ok pRooms, s2) =>
      match detectDiff ord rooms pRooms with
      | none =>
        { calls := [Call.fetchAllRooms roomsURL, Call.loadPreviousRooms], world := s2,
          err := none }
      | some d =>
        let r := notifyAndSave w rooms d s2
        { r with calls := [Call.fetchAllRooms roomsURL, Call.loadPreviousRooms] ++ r.calls }

/-! ## A concrete world -/

/-- A world state for running the program on examples: the stored snapshot and the payloads
delivered to the webhook so far. -/
structure Store where
  snapshot : List room
  posted : List Payload
deriving DecidableEq

/-- Collaborators over `Store`.  The page yields `page`; loading fails with `loadErr` when
given and returns the snapshot otherwise; posting and saving fail with `postErr` and
`saveErr` when given, and otherwise record the payload and replace the snapshot. -/
def storeWorld (page : Except String (List room)) (loadErr postErr saveErr : Option String) :
    World Store :=
  { fetchAllRooms := fun _ s => (page, s),
    loadPreviousRooms := fun s =>
      match loadErr with
      | some e => (Except.error e, s)
      | none => (Except.ok s.snapshot, s),
    notifySlack := fun payload s =>
      match postErr with
      | some e => (some e, s)
      | none => (none, { s with posted := s.posted ++ [payload] }),
    saveRooms := fun rooms s =>
      match saveErr with
      | some e => (some e, s)
      | none => (none, { s with snapshot := rooms }) }

/-- A listing used in examples. -/
def roomA : room := ⟨"1", "A", "100", "1K", "20"⟩

/-- The listing `roomA` at an earlier price. -/
def roomAOld : room := ⟨"1", "A", "90", "1K", "20"⟩

/-- A second listing used in examples. -/
def roomB : room := ⟨"2", "B", "80", "2DK", "35"⟩

/-! ## Notions used to state and prove the properties -/

/-- The slice obtained by appending the elements of `l`, one by one, to the nil slice. -/
def Slice.ofList {α : Type} (l : List α) : Slice α :=
  match l with
  | [] => none
  | _ :: _ => some l

/-- The map entry under which a listing is stored. -/
def entry (r : room) : String × room := (r.id, r)

/-- The listings of `rooms` that the loop of `detectDiff` appends to `newRooms`, when it is
entered with lookup `m`. -/
def addedL : GoMap → List room → List room
  | _, [] => []
  | m, r :: rs =>
    match m.get r.id with
    | some _ => addedL (m.delete r.id) rs
    | none => r :: addedL m rs

/-- The pair recorded for listing `r` matched with stored listing `pRoom`, if they differ. -/
def pairIfDiff (r pRoom : room) : List roomPair :=
  if (roomPair.mk r pRoom).hasDiff then [roomPair.mk r pRoom] else []

/-- The pairs that the loop of `detectDiff` appends to `updatedRoomPairs`. -/
def updatedL : GoMap → List room → List roomPair
  | _, [] => []
  | m, r :: rs =>
    match m.get r.id with
    | some pRoom => pairIfDiff r pRoom ++ updatedL (m.delete r.id) rs
    | none => updatedL m rs

/-- The lookup as the loop of `detectDiff` leaves it. -/
def leftover : GoMap → List room → GoMap
  | m, [] => m
  | m, r :: rs => leftover (m.delete r.id) rs

/-- The ids of a list of listings. -/
def ids (l : List room) : List String := l.map (fun r => r.id)

/-- The keys of a map. -/
def keys (m : GoMap) : List String := m.map Prod.fst

/-- The occurrences of id `X` in a list of listings, in order. -/
def occurrences (X : String) (l : List room) : List room :=
  l.filter (fun r => decide (r.id = X))

/-- The pairs of a list that carry id `X` (on either side). -/
def pairsWithId (X : String) (l : List roomPair) : List roomPair :=
  l.filter (fun q => decide (q.new.id = X ∨ q.old.id = X))

/-! ## Slices and deep equality -/

theorem Slice.ofList_append {α : Type} (l : List α) (x : α) :
    (Slice.ofList l).append x = Slice.ofList (l ++ [x]) := by
  cases l <;> rfl

theorem Slice.toList_ofList {α : Type} (l : List α) : (Slice.ofList l).toList = l := by
  cases l <;> rfl

theorem Slice.len_ofList {α : Type} (l : List α) : (Slice.ofList l).len = l.length := by
  cases l <;> rfl

theorem Slice.ofList_eq_none {α : Type} (l : List α) : Slice.ofList l = none ↔ l = [] := by
  cases l <;> simp [Slice.ofList]

theorem deepEqualRoom_iff (a b : room) : deepEqualRoom a b = true ↔ a = b := by
  cases a; cases b
  simp [deepEqualRoom, and_assoc]

theorem hasDiff_iff (r p : room) : (roomPair.mk r p).hasDiff = true ↔ r ≠ p := by
  simp [roomPair.hasDiff, ← deepEqualRoom_iff]

theorem deepEqualSlice_none {α : Type} (eq : α → α → Bool) (s : Slice α) :
    deepEqualSlice eq s none = true ↔ s = none := by
  cases s <;> simp [deepEqualSlice]

theorem deepEqualDiff_zero (d : diff) :
    deepEqualDiff d {} = true ↔
      d.newRooms = none ∧ d.updatedRoomPairs = none ∧ d.removedRooms = none := by
  simp [deepEqualDiff, deepEqualSlice_none, and_assoc]

/-! ## Map operations -/

theorem get_nil (k : String) : GoMap.get [] k = none := rfl

theorem get_cons (e : String × room) (m : GoMap) (k : String) :
    GoMap.get (e :: m) k = if k = e.1 then some e.2 else GoMap.get m k := by
  obtain ⟨a, b⟩ := e
  by_cases h : k = a
  · subst h; simp [GoMap.get, List.lookup]
  · have : (k == a) = false := by simpa using h
    simp [GoMap.get, List.lookup, this, h]

theorem get_delete_self (m : GoMap) (k : String) : (m.delete k).get k = none := by
  induction m with
  | nil => rfl
  | cons e m ih =>
    by_cases h : e.1 = k
    · simpa [GoMap.delete, h] using ih
    · have h2 : ¬ k = e.1 := fun h3 => h h3.symm
      have : GoMap.delete (e :: m) k = e :: GoMap.delete m k := by simp [GoMap.delete, h]
      rw [this, get_cons, if_neg h2, ih]

theorem get_delete_ne (m : GoMap) (k k2 : String) (hne : k2 ≠ k) :
    (m.delete k).get k2 = m.get k2 := by
  induction m with
  | nil => rfl
  | cons e m ih =>
    by_cases h : e.1 = k
    · have : GoMap.delete (e :: m) k = GoMap.delete m k := by simp [GoMap.delete, h]
      have h2 : ¬ k2 = e.1 := by rw [h]; exact hne
      rw [this, get_cons, if_neg h2, ih]
    · have : GoMap.delete (e :: m) k = e :: GoMap.delete m k := by simp [GoMap.delete, h]
      rw [this, get_cons, get_cons, ih]

theorem get_eq_none_iff (m : GoMap) (k : String) : m.get k = none ↔ k ∉ keys m := by
  induction m with
  | nil => simp [keys, get_nil]
  | cons e m ih =>
    rw [get_cons]
    by_cases h : k = e.1
    · simp [keys, h]
    · simp only [if_neg h, ih, keys, List.map_cons, List.mem_cons, not_or]
      exact ⟨fun h2 => ⟨h, h2⟩, fun h2 => h2.2⟩

theorem delete_of_not_mem (m : GoMap) (k : String) (h : k ∉ keys m) : m.delete k = m := by
  unfold GoMap.delete
  rw [List.filter_eq_self]
  intro e he
  have : e.1 ≠ k := fun h2 => h (by rw [← h2]; exact List.mem_map_of_mem Prod.fst he)
  simpa using this

theorem mem_of_get (m : GoMap) (k : String) (v : room) (h : m.get k = some v) : (k, v) ∈ m := by
  induction m with
  | nil => simp [get_nil] at h
  | cons e m ih =>
    rw [get_cons] at h
    by_cases hk : k = e.1
    · rw [if_pos hk] at h
      have : e = (k, v) := by
        obtain ⟨a, b⟩ := e
        simp only [Option.some.injEq] at h
        simp at hk
        rw [hk, ← h]
      rw [this]; exact List.mem_cons_self _ _
    · rw [if_neg hk] at h
      exact List.mem_cons_of_mem _ (ih h)

theorem get_of_mem (m : GoMap) (k : String) (v : room) (hn : (keys m).Nodup)
    (h : (k, v) ∈ m) : m.get k = some v := by
  induction m with
  | nil => simp at h
  | cons e m ih =>
    rw [get_cons]
    simp only [keys, List.map_cons, List.nodup_cons] at hn
    rcases List.mem_cons.1 h with h1 | h1
    · rw [← h1]; simp
    · have hk : k ≠ e.1 := by
        intro h2
        exact hn.1 (by rw [← h2]; exact List.mem_map_of_mem Prod.fst h1)
      rw [if_neg hk]
      exact ih hn.2 h1

theorem keys_delete_nodup (m : GoMap) (k : String) (hn : (keys m).Nodup) :
    (keys (m.delete k)).Nodup := by
  unfold keys GoMap.delete
  exact (List.Nodup.sublist (List.Sublist.map _ (List.filter_sublist m)) hn)

theorem get_perm (m m2 : GoMap) (hp : m.Perm m2) (hn : (keys m).Nodup) (k : String) :
    m.get k = m2.get k := by
  have hn2 : (keys m2).Nodup := (List.Perm.nodup_iff (List.Perm.map Prod.fst hp)).1 hn
  cases h : m.get k with
  | some v =>
    exact (get_of_mem m2 k v hn2 ((List.Perm.mem_iff hp).1 (mem_of_get m k v h))).symm
  | none =>
    cases h2 : m2.get k with
    | none => rfl
    | some v =>
      have := get_of_mem m k v hn ((List.Perm.mem_iff hp).2 (mem_of_get m2 k v h2))
      rw [h] at this; cases this

/-! ## The lookup built from the previous listings -/

theorem set_of_not_mem (m : GoMap) (r : room) (h : r.id ∉ keys m) :
    m.set r.id r = m ++ [entry r] := by
  unfold GoMap.set
  rw [delete_of_not_mem m r.id h]; rfl

theorem foldl_set_of_nodup (l : List room) (m : GoMap) (hl : (ids l).Nodup)
    (hd : ∀ k ∈ ids l, k ∉ keys m) :
    l.foldl (fun m pRoom => m.set pRoom.id pRoom) m = m ++ l.map entry := by
  induction l generalizing m with
  | nil => simp
  | cons r rs ih =>
    simp only [ids, List.map_cons, List.nodup_cons] at hl
    have hr : r.id ∉ keys m := hd r.id (by simp [ids])
    rw [List.foldl_cons, set_of_not_mem m r hr, ih (m ++ [entry r]) hl.2]
    · simp
    · intro k hk
      have h1 : k ∉ keys m := hd k (by simp only [ids, List.map_cons]; exact List.mem_cons_of_mem _ hk)
      have h2 : k ≠ r.id := fun h3 => hl.1 (by rw [← h3]; exact hk)
      simp only [keys, List.map_append, List.mem_append, not_or]
      exact ⟨h1, by simpa [entry] using h2⟩

theorem buildPreviousRoomsMap_of_nodup (l : List room) (hl : (ids l).Nodup) :
    buildPreviousRoomsMap l = l.map entry := by
  unfold buildPreviousRoomsMap
  rw [foldl_set_of_nodup l [] hl (by simp [keys])]
  simp

theorem keys_map_entry (l : List room) : keys (l.map entry) = ids l := by
  simp [keys, ids, entry, Function.comp_def]

theorem snd_map_entry (l : List room) : (l.map entry).map Prod.snd = l := by
  simp [entry, Function.comp_def]

/-! ## The loop of `detectDiff` -/

theorem foldl_matchRoom (rooms : List room) (a : List room) (u : List roomPair)
    (rm : Slice room) (m : GoMap) :
    rooms.foldl matchRoom (diff.mk (Slice.ofList a) (Slice.ofList u) rm, m) =
      (diff.mk (Slice.ofList (a ++ addedL m rooms)) (Slice.ofList (u ++ updatedL m rooms)) rm,
        leftover m rooms) := by
  induction rooms generalizing a u m with
  | nil => simp [addedL, updatedL, leftover]
  | cons r rs ih =>
    rw [List.foldl_cons]
    cases h : m.get r.id with
    | none =>
      have hk : r.id ∉ keys m := (get_eq_none_iff m r.id).1 h
      have : matchRoom (diff.mk (Slice.ofList a) (Slice.ofList u) rm, m) r =
          (diff.mk (Slice.ofList (a ++ [r])) (Slice.ofList u) rm, m) := by
        simp [matchRoom, h, Slice.ofList_append]
      rw [this, ih]
      simp [addedL, updatedL, leftover, h, delete_of_not_mem m r.id hk]
    | some pRoom =>
      by_cases hd : (roomPair.mk r pRoom).hasDiff = true
      · have : matchRoom (diff.mk (Slice.ofList a) (Slice.ofList u) rm, m) r =
            (diff.mk (Slice.ofList a) (Slice.ofList (u ++ [roomPair.mk r pRoom])) rm,
              m.delete r.id) := by
          simp [matchRoom, h, hd, Slice.ofList_append]
        rw [this, ih]
        simp [addedL, updatedL, leftover, h, pairIfDiff, hd]
      · have : matchRoom (diff.mk (Slice.ofList a) (Slice.ofList u) rm, m) r =
            (diff.mk (Slice.ofList a) (Slice.ofList u) rm, m.delete r.id) := by
          simp [matchRoom, h, hd]
        rw [this, ih]
        simp [addedL, updatedL, leftover, h, pairIfDiff, hd]

theorem foldl_collect (l : GoMap) (a : Slice room) (u : Slice roomPair) (rm : List room) :
    l.foldl (fun acc e => { acc with removedRooms := acc.removedRooms.append e.2 })
        (diff.mk a u (Slice.ofList rm)) =
      diff.mk a u (Slice.ofList (rm ++ l.map Prod.snd)) := by
  induction l generalizing rm with
  | nil => simp
  | cons e l ih =>
    rw [List.foldl_cons]
    simp only [Slice.ofList_append]
    rw [ih]
    simp

theorem computedDiff_eq (ord : MapOrder) (rooms previousRooms : List room) :
    computedDiff ord rooms previousRooms =
      diff.mk (Slice.ofList (addedL (buildPreviousRoomsMap previousRooms) rooms))
        (Slice.ofList (updatedL (buildPreviousRoomsMap previousRooms) rooms))
        (Slice.ofList
          ((ord.order (leftover (buildPreviousRoomsMap previousRooms) rooms)).map Prod.snd)) := by
  unfold computedDiff collectRemoved
  have h := foldl_matchRoom rooms [] [] none (buildPreviousRoomsMap previousRooms)
  simp only [List.nil_append] at h
  have h0 : (({} : diff), buildPreviousRoomsMap previousRooms) =
      (diff.mk (Slice.ofList []) (Slice.ofList []) none,
        buildPreviousRoomsMap previousRooms) := rfl
  rw [h0, h]
  have h2 := foldl_collect (ord.order (leftover (buildPreviousRoomsMap previousRooms) rooms))
    (Slice.ofList (addedL (buildPreviousRoomsMap previousRooms) rooms))
    (Slice.ofList (updatedL (buildPreviousRoomsMap previousRooms) rooms)) []
  simpa using h2

theorem order_eq_nil (ord : MapOrder) (m : GoMap) : ord.order m = [] ↔ m = [] := by
  constructor
  · intro h
    have := ord.perm m
    rw [h] at this
    exact (List.Perm.nil_eq this).symm
  · intro h
    subst h
    exact List.Perm.eq_nil (ord.perm [])

theorem detectDiff_eq_none_iff (ord : MapOrder) (rooms previousRooms : List room) :
    detectDiff ord rooms previousRooms = none ↔
      addedL (buildPreviousRoomsMap previousRooms) rooms = [] ∧
      updatedL (buildPreviousRoomsMap previousRooms) rooms = [] ∧
      leftover (buildPreviousRoomsMap previousRooms) rooms = [] := by
  unfold detectDiff
  simp only [ite_eq_left_iff, Bool.not_eq_true, reduceCtorEq, imp_false, Bool.not_eq_false,
    deepEqualDiff_zero, computedDiff_eq, Slice.ofList_eq_none, List.map_eq_nil_iff,
    order_eq_nil, not_not]

theorem detectDiff_cases (ord : MapOrder) (rooms previousRooms : List room) :
    (detectDiff ord rooms previousRooms = none ∧
      deepEqualDiff (computedDiff ord rooms previousRooms) {} = true) ∨
    (detectDiff ord rooms previousRooms = some (computedDiff ord rooms previousRooms) ∧
      deepEqualDiff (computedDiff ord rooms previousRooms) {} = false) := by
  unfold detectDiff
  cases h : deepEqualDiff (computedDiff ord rooms previousRooms) {} <;> simp [h]

theorem addedOf_detectDiff (ord : MapOrder) (rooms previousRooms : List room) :
    addedOf (detectDiff ord rooms previousRooms) =
      addedL (buildPreviousRoomsMap previousRooms) rooms := by
  rcases detectDiff_cases ord rooms previousRooms with ⟨h, _⟩ | ⟨h, _⟩
  · rw [h]
    exact ((detectDiff_eq_none_iff ord rooms previousRooms).1 h).1.symm
  · rw [h, computedDiff_eq]
    simp [addedOf, Slice.toList_ofList]

theorem updatedOf_detectDiff (ord : MapOrder) (rooms previousRooms : List room) :
    updatedOf (detectDiff ord rooms previousRooms) =
      updatedL (buildPreviousRoomsMap previousRooms) rooms := by
  rcases detectDiff_cases ord rooms previousRooms with ⟨h, _⟩ | ⟨h, _⟩
  · rw [h]
    exact ((detectDiff_eq_none_iff ord rooms previousRooms).1 h).2.1.symm
  · rw [h, computedDiff_eq]
    simp [updatedOf, Slice.toList_ofList]

theorem removedOf_detectDiff (ord : MapOrder) (rooms previousRooms : List room) :
    removedOf (detectDiff ord rooms previousRooms) =
      (ord.order (leftover (buildPreviousRoomsMap previousRooms) rooms)).map Prod.snd := by
  rcases detectDiff_cases ord rooms previousRooms with ⟨h, _⟩ | ⟨h, _⟩
  · rw [h]
    have := ((detectDiff_eq_none_iff ord rooms previousRooms).1 h).2.2
    rw [this, (order_eq_nil ord []).2 rfl]
    rfl
  · rw [h, computedDiff_eq]
    simp [removedOf, Slice.toList_ofList]

/-! ## What the loop appends, in terms of the lookup it starts from -/

theorem leftover_eq_filter (m : GoMap) (cur : List room) :
    leftover m cur = m.filter (fun e => decide (e.1 ∉ ids cur)) := by
  induction cur generalizing m with
  | nil => simp [leftover, ids]
  | cons r rs ih =>
    rw [leftover, ih, GoMap.delete, List.filter_filter]
    apply List.filter_congr
    intro e _
    by_cases h1 : e.1 = r.id <;> by_cases h2 : e.1 ∈ ids rs <;> simp [ids, h1, h2]

theorem addedL_eq_filter (m : GoMap) (cur : List room) (hn : (ids cur).Nodup) :
    addedL m cur = cur.filter (fun r => (m.get r.id).isNone) := by
  induction cur generalizing m with
  | nil => simp [addedL]
  | cons r rs ih =>
    simp only [ids, List.map_cons, List.nodup_cons] at hn
    cases h : m.get r.id with
    | none => simp [addedL, h, ih m hn.2]
    | some v =>
      simp only [addedL, h, ih (m.delete r.id) hn.2, List.filter_cons, Option.isNone_some]
      simp only [Bool.false_eq_true, if_false]
      apply List.filter_congr
      intro r2 hr2
      have hne : r2.id ≠ r.id := fun h2 => hn.1 (by rw [← h2]; exact List.mem_map_of_mem _ hr2)
      rw [get_delete_ne m r.id r2.id hne]

theorem mem_delete (m : GoMap) (k : String) (e : String × room) (h : e ∈ m.delete k) :
    e ∈ m :=
  (List.filter_sublist m).subset h

theorem mem_updatedL (m : GoMap) (cur : List room) (q : roomPair) (h : q ∈ updatedL m cur) :
    q.new ∈ cur ∧ (q.new.id, q.old) ∈ m ∧ q.new ≠ q.old := by
  induction cur generalizing m with
  | nil => simp [updatedL] at h
  | cons r rs ih =>
    cases hg : m.get r.id with
    | none =>
      simp only [updatedL, hg] at h
      obtain ⟨h1, h2, h3⟩ := ih m h
      exact ⟨List.mem_cons_of_mem _ h1, h2, h3⟩
    | some v =>
      simp only [updatedL, hg, List.mem_append] at h
      rcases h with h | h
      · unfold pairIfDiff at h
        by_cases hd : (roomPair.mk r v).hasDiff = true
        · rw [if_pos hd] at h
          have hq : q = roomPair.mk r v := by simpa using h
          subst hq
          exact ⟨List.mem_cons_self _ _, mem_of_get m r.id v hg, (hasDiff_iff r v).1 hd⟩
        · rw [if_neg hd] at h
          simp at h
      · obtain ⟨h1, h2, h3⟩ := ih _ h
        exact ⟨List.mem_cons_of_mem _ h1, mem_delete m r.id _ h2, h3⟩

theorem loop_of_no_match (m : GoMap) (cur : List room) (h : ∀ r ∈ cur, m.get r.id = none) :
    addedL m cur = cur ∧ updatedL m cur = [] ∧ leftover m cur = m := by
  induction cur with
  | nil => simp [addedL, updatedL, leftover]
  | cons r rs ih =>
    have hr : m.get r.id = none := h r (List.mem_cons_self _ _)
    obtain ⟨h1, h2, h3⟩ := ih (fun r2 hr2 => h r2 (List.mem_cons_of_mem _ hr2))
    have hk : r.id ∉ keys m := (get_eq_none_iff m r.id).1 hr
    simp [addedL, updatedL, leftover, hr, h1, h2, h3, delete_of_not_mem m r.id hk]

theorem loop_perm (m m2 : GoMap) (cur : List room) (hp : m.Perm m2) (hn : (keys m).Nodup) :
    addedL m cur = addedL m2 cur ∧ updatedL m cur = updatedL m2 cur ∧
      (leftover m cur).Perm (leftover m2 cur) := by
  induction cur generalizing m m2 with
  | nil => simpa [addedL, updatedL, leftover] using hp
  | cons r rs ih =>
    have hg := get_perm m m2 hp hn r.id
    have hpd : (m.delete r.id).Perm (m2.delete r.id) := List.Perm.filter _ hp
    obtain ⟨h1, h2, h3⟩ := ih (m.delete r.id) (m2.delete r.id) hpd (keys_delete_nodup m r.id hn)
    obtain ⟨h4, h5, _⟩ := ih m m2 hp hn
    cases h : m.get r.id with
    | none =>
      rw [h] at hg
      simp [addedL, updatedL, leftover, h, ← hg, h4, h5, h3]
    | some v =>
      rw [h] at hg
      simp [addedL, updatedL, leftover, h, ← hg, h1, h2, h3]

theorem occurrences_addedL (X : String) (m : GoMap) (cur : List room) :
    occurrences X (addedL m cur) =
      if (m.get X).isSome then (occurrences X cur).tail else occurrences X cur := by
  induction cur generalizing m with
  | nil => simp [addedL, occurrences]
  | cons r rs ih =>
    by_cases hx : r.id = X
    · cases h : m.get r.id with
      | none =>
        have hX : m.get X = none := by rw [← hx]; exact h
        have := ih m
        rw [hX] at this
        simp only [Option.isSome_none, Bool.false_eq_true, if_false] at this
        simp [addedL, h, hX, occurrences, hx]
        simpa [occurrences] using this
      | some v =>
        have hX : m.get X = some v := by rw [← hx]; exact h
        have := ih (m.delete r.id)
        rw [hx, get_delete_self] at this
        simp only [Option.isSome_none, Bool.false_eq_true, if_false] at this
        simp only [addedL, h, hX, Option.isSome_some, if_true]
        rw [hx, this]
        simp [occurrences, hx]
    · have hne : X ≠ r.id := fun h => hx h.symm
      cases h : m.get r.id with
      | none =>
        simp only [addedL, h]
        have := ih m
        simp only [occurrences, List.filter_cons, hx, decide_False, Bool.false_eq_true,
          if_false] at this ⊢
        exact this
      | some v =>
        simp only [addedL, h]
        have := ih (m.delete r.id)
        rw [get_delete_ne m r.id X hne] at this
        simp only [occurrences, List.filter_cons, hx, decide_False, Bool.false_eq_true,
          if_false] at this ⊢
        exact this

theorem keyed_map_entry (l : List room) : ∀ e ∈ l.map entry, e.2.id = e.1 := by
  intro e he
  obtain ⟨r, _, hr⟩ := List.mem_map.1 he
  rw [← hr]; rfl

theorem pairsWithId_updatedL_nil (X : String) (m : GoMap) (cur : List room)
    (hK : ∀ e ∈ m, e.2.id = e.1) (hX : X ∉ ids cur) :
    pairsWithId X (updatedL m cur) = [] := by
  unfold pairsWithId
  rw [List.filter_eq_nil_iff]
  intro q hq
  obtain ⟨h1, h2, _⟩ := mem_updatedL m cur q hq
  have h3 : q.old.id = q.new.id := hK _ h2
  have h4 : q.new.id ≠ X := fun h => hX (by rw [← h]; exact List.mem_map_of_mem _ h1)
  simp [h3, h4]

theorem pairsWithId_pairIfDiff_self (c p : room) :
    pairsWithId c.id (pairIfDiff c p) = pairIfDiff c p := by
  unfold pairsWithId pairIfDiff
  split <;> simp

theorem pairsWithId_pairIfDiff_ne (X : String) (r v : room) (h1 : r.id ≠ X) (h2 : v.id ≠ X) :
    pairsWithId X (pairIfDiff r v) = [] := by
  unfold pairsWithId pairIfDiff
  split <;> simp [h1, h2]

theorem pairsWithId_append (X : String) (a b : List roomPair) :
    pairsWithId X (a ++ b) = pairsWithId X a ++ pairsWithId X b := by
  simp [pairsWithId]

theorem pairsWithId_updatedL (c p : room) (m : GoMap) (cur : List room)
    (hK : ∀ e ∈ m, e.2.id = e.1) (hn : (ids cur).Nodup) (hc : c ∈ cur)
    (hg : m.get c.id = some p) :
    pairsWithId c.id (updatedL m cur) = pairIfDiff c p := by
  induction cur generalizing m with
  | nil => simp at hc
  | cons r rs ih =>
    simp only [ids, List.map_cons, List.nodup_cons] at hn
    have hKd : ∀ e ∈ m.delete r.id, e.2.id = e.1 := fun e he => hK e (mem_delete m r.id e he)
    rcases List.mem_cons.1 hc with h | h
    · subst h
      simp only [updatedL, hg, pairsWithId_append, pairsWithId_pairIfDiff_self]
      rw [pairsWithId_updatedL_nil c.id _ rs hKd hn.1]
      simp
    · have hne : c.id ≠ r.id := by
        intro h2
        exact hn.1 (by rw [← h2]; exact List.mem_map_of_mem _ h)
      cases hr : m.get r.id with
      | none =>
        simp only [updatedL, hr]
        exact ih m hK hn.2 h hg
      | some v =>
        have hv : v.id = r.id := hK _ (mem_of_get m r.id v hr)
        simp only [updatedL, hr, pairsWithId_append]
        rw [pairsWithId_pairIfDiff_ne c.id r v (fun h2 => hne h2.symm)
          (by rw [hv]; exact fun h2 => hne h2.symm)]
        rw [ih (m.delete r.id) hKd hn.2 h (by rw [get_delete_ne m r.id c.id hne]; exact hg)]
        simp

theorem keys_set (m : GoMap) (k : String) (v : room) (k2 : String) :
    k2 ∈ keys (m.set k v) ↔ k2 ∈ keys m ∨ k2 = k := by
  unfold GoMap.set GoMap.delete keys
  simp only [List.map_append, List.mem_append, List.mem_map, List.mem_filter, List.map_cons,
    List.map_nil, List.mem_singleton]
  constructor
  · rintro (⟨e, ⟨he, _⟩, h2⟩ | h)
    · exact Or.inl ⟨e, he, h2⟩
    · exact Or.inr h
  · rintro (⟨e, he, h2⟩ | h)
    · by_cases hk : k2 = k
      · exact Or.inr hk
      · refine Or.inl ⟨e, ⟨he, ?_⟩, h2⟩
        rw [h2]; simpa using hk
    · exact Or.inr h

theorem keys_foldl_set (l : List room) (m : GoMap) (k : String) :
    k ∈ keys (l.foldl (fun m pRoom => m.set pRoom.id pRoom) m) ↔ k ∈ keys m ∨ k ∈ ids l := by
  induction l generalizing m with
  | nil => simp [ids]
  | cons r rs ih =>
    rw [List.foldl_cons, ih, keys_set]
    simp [ids, or_assoc]

theorem keys_buildPreviousRoomsMap (l : List room) (k : String) :
    k ∈ keys (buildPreviousRoomsMap l) ↔ k ∈ ids l := by
  unfold buildPreviousRoomsMap
  rw [keys_foldl_set]
  simp [keys]

theorem deepEqualDiff_computedDiff (ord : MapOrder) (rooms previousRooms : List room) :
    deepEqualDiff (computedDiff ord rooms previousRooms) {} =
      (computedDiff ord rooms previousRooms).isEmpty := by
  rw [Bool.eq_iff_iff, deepEqualDiff_zero, computedDiff_eq]
  simp [diff.isEmpty, Slice.len_ofList, Slice.ofList_eq_none, and_assoc]

/-! ## Properties of `detectDiff` -/

/-- C1. When current and previous each have pairwise distinct ids and a listing `c` of
current shares its id with a listing `p` of previous, that id occurs neither among the added
nor among the removed listings; if `c` and `p` differ in title, price, layout or size, the
updated pairs contain exactly one pair with that id, namely `{new: c, old: p}`; if `c` and
`p` are identical, no updated pair has that id. -/
theorem detectDiff_common_id (ord : MapOrder) (current previous : List room) (c p : room)
    (hcur : (ids current).Nodup) (hprev : (ids previous).Nodup)
    (hc : c ∈ current) (hp : p ∈ previous) (hid : c.id = p.id) :
    c.id ∉ ids (addedOf (detectDiff ord current previous)) ∧
    c.id ∉ ids (removedOf (detectDiff ord current previous)) ∧
    ((c.title ≠ p.title ∨ c.price ≠ p.price ∨ c.layout ≠ p.layout ∨ c.size ≠ p.size) →
      pairsWithId c.id (updatedOf (detectDiff ord current previous)) = [roomPair.mk c p]) ∧
    (c = p → pairsWithId c.id (updatedOf (detectDiff ord current previous)) = []) := by
  rw [addedOf_detectDiff, removedOf_detectDiff, updatedOf_detectDiff,
    buildPreviousRoomsMap_of_nodup previous hprev]
  have hkeys : (keys (previous.map entry)).Nodup := by rw [keys_map_entry]; exact hprev
  have hg : GoMap.get (previous.map entry) c.id = some p := by
    apply get_of_mem _ _ _ hkeys
    rw [hid]
    exact List.mem_map_of_mem entry hp
  have hupd := pairsWithId_updatedL c p (previous.map entry) current (keyed_map_entry previous)
    hcur hc hg
  refine ⟨?_, ?_, ?_, ?_⟩
  · intro h
    obtain ⟨r, hr, hrid⟩ := List.mem_map.1 h
    rw [addedL_eq_filter _ _ hcur] at hr
    have h2 := (List.mem_filter.1 hr).2
    rw [hrid, hg] at h2
    simp at h2
  · intro h
    obtain ⟨r, hr, hrid⟩ := List.mem_map.1 h
    obtain ⟨e, he, hes⟩ := List.mem_map.1 hr
    have he2 : e ∈ leftover (previous.map entry) current := (List.Perm.mem_iff (ord.perm _)).1 he
    rw [leftover_eq_filter] at he2
    obtain ⟨he3, he4⟩ := List.mem_filter.1 he2
    have hk : e.2.id = e.1 := keyed_map_entry previous e he3
    have : e.1 ∈ ids current := by
      rw [← hk, hes, hrid]
      exact List.mem_map_of_mem _ hc
    simp [this] at he4
  · intro hdiff
    rw [hupd]
    have hne : c ≠ p := by
      intro h
      subst h
      simp at hdiff
    simp [pairIfDiff, (hasDiff_iff c p).2 hne]
  · intro heq
    rw [hupd]
    have : ¬ (roomPair.mk c p).hasDiff = true := fun h => (hasDiff_iff c p).1 h heq
    simp [pairIfDiff, this]

/-- C2. When A and B each have pairwise distinct ids and share no id, `detectDiff(A, B)` has
added equal to A (in A's order), removed a rearrangement of B, and updated empty; nil is
returned only when A and B are both empty.  In particular `detectDiff([r], [])` is the diff
with added `[r]` alone and `detectDiff([], [r])` the diff with removed `[r]` alone. -/
theorem detectDiff_disjoint (ord : MapOrder) (A B : List room)
    (hA : (ids A).Nodup) (hB : (ids B).Nodup) (hdis : ∀ k ∈ ids A, k ∉ ids B) :
    addedOf (detectDiff ord A B) = A ∧
    updatedOf (detectDiff ord A B) = [] ∧
    (removedOf (detectDiff ord A B)).Perm B ∧
    (detectDiff ord A B = none ↔ A = [] ∧ B = []) ∧
    (∀ r : room, detectDiff ord [r] [] = some (diff.mk (some [r]) none none)) ∧
    (∀ r : room, detectDiff ord [] [r] = some (diff.mk none none (some [r]))) := by
  have hA2 := hA
  have hno : ∀ r ∈ A, GoMap.get (B.map entry) r.id = none := by
    intro r hr
    rw [get_eq_none_iff, keys_map_entry]
    exact hdis r.id (List.mem_map_of_mem _ hr)
  obtain ⟨h1, h2, h3⟩ := loop_of_no_match (B.map entry) A hno
  have hperm : ((ord.order (B.map entry)).map Prod.snd).Perm B := by
    have := List.Perm.map Prod.snd (ord.perm (B.map entry))
    rwa [snd_map_entry] at this
  refine ⟨?_, ?_, ?_, ?_, ?_, ?_⟩
  · rw [addedOf_detectDiff, buildPreviousRoomsMap_of_nodup B hB, h1]
  · rw [updatedOf_detectDiff, buildPreviousRoomsMap_of_nodup B hB, h2]
  · rw [removedOf_detectDiff, buildPreviousRoomsMap_of_nodup B hB, h3]
    exact hperm
  · rw [detectDiff_eq_none_iff, buildPreviousRoomsMap_of_nodup B hB, h1, h2, h3]
    simp
  · intro r
    rcases detectDiff_cases ord [r] [] with ⟨h, _⟩ | ⟨h, _⟩
    · have := (detectDiff_eq_none_iff ord [r] []).1 h
      simp [buildPreviousRoomsMap, addedL, get_nil] at this
    · rw [h, computedDiff_eq]
      have h0 : ord.order [] = [] := (order_eq_nil ord []).2 rfl
      simp [buildPreviousRoomsMap, addedL, updatedL, leftover, get_nil, GoMap.delete, h0,
        Slice.ofList]
  · intro r
    have hord : ord.order [entry r] = [entry r] := List.perm_singleton.1 (ord.perm [entry r])
    have hb : buildPreviousRoomsMap [r] = [entry r] := rfl
    rcases detectDiff_cases ord [] [r] with ⟨h, _⟩ | ⟨h, _⟩
    · have := (detectDiff_eq_none_iff ord [] [r]).1 h
      simp [hb, leftover] at this
    · rw [h, computedDiff_eq]
      simp only [hb, addedL, updatedL, leftover, hord]
      rfl

/-- C3. For a list A with pairwise distinct ids and any rearrangement P of it (P = A
included), `detectDiff(A, P)` is nil. -/
theorem detectDiff_self_perm (ord : MapOrder) (A P : List room)
    (hA : (ids A).Nodup) (hP : P.Perm A) :
    detectDiff ord A P = none := by
  have hPn : (ids P).Nodup := (List.Perm.nodup_iff (List.Perm.map _ hP)).2 hA
  have hkeys : (keys (P.map entry)).Nodup := by rw [keys_map_entry]; exact hPn
  have hg : ∀ r ∈ A, GoMap.get (P.map entry) r.id = some r := by
    intro r hr
    apply get_of_mem _ _ _ hkeys
    exact List.mem_map_of_mem entry ((List.Perm.mem_iff hP).2 hr)
  rw [detectDiff_eq_none_iff, buildPreviousRoomsMap_of_nodup P hPn]
  refine ⟨?_, ?_, ?_⟩
  · rw [addedL_eq_filter _ _ hA, List.filter_eq_nil_iff]
    intro r hr
    rw [hg r hr]
    simp
  · rw [List.eq_nil_iff_forall_not_mem]
    intro q hq
    obtain ⟨h1, h2, h3⟩ := mem_updatedL _ _ q hq
    have h4 := get_of_mem _ _ _ hkeys h2
    rw [hg q.new h1] at h4
    exact h3 (Option.some.inj h4)
  · rw [leftover_eq_filter, List.filter_eq_nil_iff]
    intro e he
    obtain ⟨r, hr, hre⟩ := List.mem_map.1 he
    have : e.1 ∈ ids A := by
      rw [← hre]
      exact List.mem_map_of_mem _ ((List.Perm.mem_iff hP).1 hr)
    simp [this]

/-- C4. For any current list C, a previous list B with pairwise distinct ids and any
rearrangement B2 of B, `detectDiff(C, B2)` and `detectDiff(C, B)` are both nil, or both a diff
with the same added slice, the same updated slice and removed listings that agree up to
order, whatever the two iteration orders of the lookup are. -/
theorem detectDiff_previous_order (ord ord2 : MapOrder) (C B B2 : List room)
    (hB : (ids B).Nodup) (hP : B2.Perm B) :
    (detectDiff ord2 C B2 = none ∧ detectDiff ord C B = none) ∨
    (∃ d2 d : diff, detectDiff ord2 C B2 = some d2 ∧ detectDiff ord C B = some d ∧
      d2.newRooms = d.newRooms ∧ d2.updatedRoomPairs = d.updatedRoomPairs ∧
      d2.removedRooms.toList.Perm d.removedRooms.toList) := by
  have hB2 : (ids B2).Nodup := (List.Perm.nodup_iff (List.Perm.map _ hP)).2 hB
  have hkeys : (keys (B2.map entry)).Nodup := by rw [keys_map_entry]; exact hB2
  obtain ⟨h1, h2, h3⟩ := loop_perm (B2.map entry) (B.map entry) C (List.Perm.map entry hP) hkeys
  have hnone : detectDiff ord2 C B2 = none ↔ detectDiff ord C B = none := by
    rw [detectDiff_eq_none_iff, detectDiff_eq_none_iff, buildPreviousRoomsMap_of_nodup B hB,
      buildPreviousRoomsMap_of_nodup B2 hB2, h1, h2]
    constructor
    · rintro ⟨a, b, c⟩
      refine ⟨a, b, ?_⟩
      rw [c] at h3
      exact List.Perm.nil_eq h3 |>.symm
    · rintro ⟨a, b, c⟩
      refine ⟨a, b, ?_⟩
      rw [c] at h3
      exact List.Perm.eq_nil h3
  rcases detectDiff_cases ord C B with ⟨h, _⟩ | ⟨h, _⟩
  · exact Or.inl ⟨hnone.2 h, h⟩
  · rcases detectDiff_cases ord2 C B2 with ⟨h4, _⟩ | ⟨h4, _⟩
    · rw [hnone.1 h4] at h; cases h
    · refine Or.inr ⟨_, _, h4, h, ?_, ?_, ?_⟩
      · rw [computedDiff_eq, computedDiff_eq, buildPreviousRoomsMap_of_nodup B hB,
          buildPreviousRoomsMap_of_nodup B2 hB2, h1]
      · rw [computedDiff_eq, computedDiff_eq, buildPreviousRoomsMap_of_nodup B hB,
          buildPreviousRoomsMap_of_nodup B2 hB2, h2]
      · rw [computedDiff_eq, computedDiff_eq, buildPreviousRoomsMap_of_nodup B hB,
          buildPreviousRoomsMap_of_nodup B2 hB2]
        simp only [Slice.toList_ofList]
        apply List.Perm.map
        exact ((ord2.perm _).trans h3).trans (ord.perm _).symm

/-- C5. `detectDiff` returns nil exactly when the three collections it computed are all
empty: on the computed diff the `reflect.DeepEqual` test against the zero value agrees with
the tri-list emptiness check, so `detectDiff` coincides with the variant that uses the
explicit check, and a diff it returns is never empty in all three collections. -/
theorem detectDiff_nil_iff_all_empty (ord : MapOrder) (rooms previousRooms : List room) :
    (detectDiff ord rooms previousRooms = none ↔
      (computedDiff ord rooms previousRooms).newRooms.len = 0 ∧
      (computedDiff ord rooms previousRooms).updatedRoomPairs.len = 0 ∧
      (computedDiff ord rooms previousRooms).removedRooms.len = 0) ∧
    deepEqualDiff (computedDiff ord rooms previousRooms) {} =
      (computedDiff ord rooms previousRooms).isEmpty ∧
    detectDiff ord rooms previousRooms = detectDiffTriList ord rooms previousRooms ∧
    (∀ d : diff, detectDiff ord rooms previousRooms = some d →
      ¬ (d.newRooms.len = 0 ∧ d.updatedRoomPairs.len = 0 ∧ d.removedRooms.len = 0)) := by
  have hlen : ((computedDiff ord rooms previousRooms).newRooms.len = 0 ∧
      (computedDiff ord rooms previousRooms).updatedRoomPairs.len = 0 ∧
      (computedDiff ord rooms previousRooms).removedRooms.len = 0) ↔
      deepEqualDiff (computedDiff ord rooms previousRooms) {} = true := by
    rw [deepEqualDiff_zero, computedDiff_eq]
    simp only [Slice.len_ofList, Slice.ofList_eq_none, List.length_eq_zero]
  have hde : deepEqualDiff (computedDiff ord rooms previousRooms) {} =
      (computedDiff ord rooms previousRooms).isEmpty := by
    rw [Bool.eq_iff_iff, ← hlen]
    simp [diff.isEmpty, and_assoc]
  refine ⟨?_, hde, ?_, ?_⟩
  · rw [hlen]
    rcases detectDiff_cases ord rooms previousRooms with ⟨h, h2⟩ | ⟨h, h2⟩
    · simp [h, h2]
    · simp [h, h2]
  · unfold detectDiff detectDiffTriList
    simp only [hde]
  · intro d hd
    rcases detectDiff_cases ord rooms previousRooms with ⟨h, h2⟩ | ⟨h, h2⟩
    · rw [h] at hd; cases hd
    · rw [h] at hd
      have hd2 : computedDiff ord rooms previousRooms = d := Option.some.inj hd
      rw [← hd2, hlen, h2]
      simp

/-- C10. When an id X occurs at least twice in the current list, every occurrence of X after
the first is appended to added, whatever the previous list holds: the occurrences after the
first form the tail end of the added listings with id X, and they are all of them when
previous has a listing with id X.  Consequently the diff of such a list against itself is not
nil. -/
theorem detectDiff_duplicate_id (ord : MapOrder) (current previous : List room) (X : String)
    (hdup : 2 ≤ (occurrences X current).length) :
    (occurrences X current).tail <:+
      occurrences X (addedOf (detectDiff ord current previous)) ∧
    (X ∈ ids previous →
      occurrences X (addedOf (detectDiff ord current previous)) =
        (occurrences X current).tail) ∧
    detectDiff ord current current ≠ none := by
  have key : ∀ prev : List room, occurrences X (addedOf (detectDiff ord current prev)) =
      if X ∈ ids prev then (occurrences X current).tail else occurrences X current := by
    intro prev
    rw [addedOf_detectDiff, occurrences_addedL]
    by_cases hX : X ∈ ids prev
    · have : GoMap.get (buildPreviousRoomsMap prev) X ≠ none := by
        rw [Ne, get_eq_none_iff, keys_buildPreviousRoomsMap]
        exact fun h => h hX
      rw [if_pos hX, if_pos (Option.isSome_iff_ne_none.2 this)]
    · have : GoMap.get (buildPreviousRoomsMap prev) X = none := by
        rw [get_eq_none_iff, keys_buildPreviousRoomsMap]
        exact hX
      rw [if_neg hX, this]
      simp
  refine ⟨?_, ?_, ?_⟩
  · rw [key previous]
    split
    · exact List.suffix_refl _
    · exact List.tail_suffix _
  · intro hX
    rw [key previous, if_pos hX]
  · intro hnone
    have h := key current
    rw [hnone] at h
    have hne : (occurrences X current).tail ≠ [] := by
      intro h2
      have := congrArg List.length h2
      simp only [List.length_tail, List.length_nil] at this
      omega
    split at h
    · exact hne (by simpa [addedOf, occurrences] using h.symm)
    · have : occurrences X current = [] := by simpa [addedOf, occurrences] using h.symm
      rw [this] at hdup
      simp at hdup

/-! ## Properties of `Execute` -/

theorem intercalate_two (a b : String) : String.intercalate "\n" [a, b] = a ++ "\n" ++ b := rfl

theorem intercalate_one (a : String) : String.intercalate "\n" [a] = a := rfl

theorem notifyAndSave_err {σ : Type} (w : World σ) (rooms : List room) (d : diff) (s : σ) :
    (notifyAndSave w rooms d s).err =
      match (notifyDiff w d s).1, (w.saveRooms rooms (notifyDiff w d s).2).1 with
      | none, none => none
      | some e1, none => some ("failed to notify diff: " ++ e1)
      | none, some e2 => some ("failed to save rooms: " ++ e2)
      | some e1, some e2 =>
        some ("failed to notify diff: " ++ e1 ++ "\n" ++ ("failed to save rooms: " ++ e2)) := by
  unfold notifyAndSave
  cases h1 : (notifyDiff w d s).1 <;> cases h2 : (w.saveRooms rooms (notifyDiff w d s).2).1 <;>
    simp [h1, h2, intercalate_one, intercalate_two]

theorem Execute_of_diff {σ : Type} (w : World σ) (ord : MapOrder) (roomsURL : String)
    (s s1 s2 : σ) (rooms pRooms : List room) (d : diff)
    (hf : w.fetchAllRooms roomsURL s = (Except.ok rooms, s1))
    (hl : w.loadPreviousRooms s1 = (Except.ok pRooms, s2))
    (hd : detectDiff ord rooms pRooms = some d) :
    Execute w ord roomsURL s =
      { notifyAndSave w rooms d s2 with
        calls := [Call.fetchAllRooms roomsURL, Call.loadPreviousRooms] ++
          (notifyAndSave w rooms d s2).calls } := by
  unfold Execute
  simp only [hf, hl, hd]

/-- C6. When fetching and loading succeed and `detectDiff` is not nil, `Execute` calls
`notifyDiff` with the diff and then `saveRooms` with the freshly fetched listings, the save
acting on the world the notification left whether or not the notification failed; it
returns nil iff both calls returned nil, and otherwise an error whose text joins with a
newline, notify first, the texts "failed to notify diff: e1" and "failed to save rooms: e2"
of exactly the calls that failed. -/
theorem Execute_notify_then_save {σ : Type} (w : World σ) (ord : MapOrder) (roomsURL : String)
    (s s1 s2 : σ) (rooms pRooms : List room) (d : diff)
    (hf : w.fetchAllRooms roomsURL s = (Except.ok rooms, s1))
    (hl : w.loadPreviousRooms s1 = (Except.ok pRooms, s2))
    (hd : detectDiff ord rooms pRooms = some d) :
    (Execute w ord roomsURL s).calls =
      [Call.fetchAllRooms roomsURL, Call.loadPreviousRooms, Call.notifyDiff d,
        Call.saveRooms rooms] ∧
    (Execute w ord roomsURL s).world = (w.saveRooms rooms (notifyDiff w d s2).2).2 ∧
    ((Execute w ord roomsURL s).err = none ↔
      (notifyDiff w d s2).1 = none ∧ (w.saveRooms rooms (notifyDiff w d s2).2).1 = none) ∧
    (Execute w ord roomsURL s).err =
      match (notifyDiff w d s2).1, (w.saveRooms rooms (notifyDiff w d s2).2).1 with
      | none, none => none
      | some e1, none => some ("failed to notify diff: " ++ e1)
      | none, some e2 => some ("failed to save rooms: " ++ e2)
      | some e1, some e2 =>
        some ("failed to notify diff: " ++ e1 ++ "\n" ++ ("failed to save rooms: " ++ e2)) := by
  rw [Execute_of_diff w ord roomsURL s s1 s2 rooms pRooms d hf hl hd]
  have herr := notifyAndSave_err w rooms d s2
  refine ⟨rfl, rfl, ?_, herr⟩
  show (notifyAndSave w rooms d s2).err = none ↔ _
  rw [herr]
  cases (notifyDiff w d s2).1 <;> cases (w.saveRooms rooms (notifyDiff w d s2).2).1 <;> simp

/-- C7. When fetching and loading succeed and `detectDiff` is nil, `Execute` returns nil
having called only `fetchAllRooms` and `loadPreviousRooms`, and leaves the world as loading
left it; when fetching fails, or loading fails, it returns an error, again without a call
of `notifyDiff` or `saveRooms` and without touching the world further.  Hence a call of
`saveRooms` occurs only when fetching and loading succeeded and `detectDiff` returned a
diff, which is then not empty. -/
theorem Execute_without_effect {σ : Type} (w : World σ) (ord : MapOrder) (roomsURL : String)
    (s : σ) :
    (∀ (rooms pRooms : List room) (s1 s2 : σ),
      w.fetchAllRooms roomsURL s = (Except.ok rooms, s1) →
      w.loadPreviousRooms s1 = (Except.ok pRooms, s2) →
      detectDiff ord rooms pRooms = none →
      (Execute w ord roomsURL s).err = none ∧
      (Execute w ord roomsURL s).calls = [Call.fetchAllRooms roomsURL, Call.loadPreviousRooms] ∧
      (Execute w ord roomsURL s).world = s2) ∧
    (∀ (e : String) (s1 : σ),
      w.fetchAllRooms roomsURL s = (Except.error e, s1) →
      (Execute w ord roomsURL s).err = some ("failed to fetch rooms: " ++ e) ∧
      (Execute w ord roomsURL s).calls = [Call.fetchAllRooms roomsURL] ∧
      (Execute w ord roomsURL s).world = s1) ∧
    (∀ (rooms : List room) (e : String) (s1 s2 : σ),
      w.fetchAllRooms roomsURL s = (Except.ok rooms, s1) →
      w.loadPreviousRooms s1 = (Except.error e, s2) →
      (Execute w ord roomsURL s).err = some ("failed to load previous rooms: " ++ e) ∧
      (Execute w ord roomsURL s).calls = [Call.fetchAllRooms roomsURL, Call.loadPreviousRooms] ∧
      (Execute w ord roomsURL s).world = s2) ∧
    (∀ saved : List room, Call.saveRooms saved ∈ (Execute w ord roomsURL s).calls →
      ∃ (pRooms : List room) (s1 s2 : σ) (d : diff),
        w.fetchAllRooms roomsURL s = (Except.ok saved, s1) ∧
        w.loadPreviousRooms s1 = (Except.ok pRooms, s2) ∧
        detectDiff ord saved pRooms = some d ∧ d.isEmpty = false) := by
  refine ⟨?_, ?_, ?_, ?_⟩
  · intro rooms pRooms s1 s2 hf hl hd
    unfold Execute
    simp only [hf, hl, hd, and_self]
  · intro e s1 hf
    unfold Execute
    simp only [hf, and_self]
  · intro rooms e s1 s2 hf hl
    unfold Execute
    simp only [hf, hl, and_self]
  · intro saved hmem
    rcases hf : w.fetchAllRooms roomsURL s with ⟨res, s1⟩
    cases res with
    | error e =>
      unfold Execute at hmem
      simp [hf] at hmem
    | ok rooms =>
      rcases hl : w.loadPreviousRooms s1 with ⟨res2, s2⟩
      cases res2 with
      | error e =>
        unfold Execute at hmem
        simp [hf, hl] at hmem
      | ok pRooms =>
        cases hd : detectDiff ord rooms pRooms with
        | none =>
          unfold Execute at hmem
          simp [hf, hl, hd] at hmem
        | some d =>
          rw [Execute_of_diff w ord roomsURL s s1 s2 rooms pRooms d hf hl hd] at hmem
          have hs : saved = rooms := by simpa [notifyAndSave] using hmem
          subst hs
          refine ⟨pRooms, s1, s2, d, rfl, hl, hd, ?_⟩
          rcases detectDiff_cases ord saved pRooms with ⟨h, _⟩ | ⟨h, h2⟩
          · rw [h] at hd; cases hd
          · rw [h] at hd
            have hd2 : computedDiff ord saved pRooms = d := Option.some.inj hd
            rw [← hd2]
            have h3 := (deepEqualDiff_computedDiff ord saved pRooms)
            rw [← h3]; exact h2

/-! ## Properties of the Slack payloads -/

theorem foldl_append_singleton {α β : Type} (f : α → β) (l : List α) (init : List β) :
    l.foldl (fun bs x => bs ++ [f x]) init = init ++ l.map f := by
  induction l generalizing init with
  | nil => simp
  | cons x xs ih => rw [List.foldl_cons, ih]; simp

theorem Slice.toList_of_len_zero {α : Type} (s : Slice α) (h : ¬ s.len > 0) : s.toList = [] := by
  cases s with
  | none => rfl
  | some l =>
    cases l with
    | nil => rfl
    | cons a t => simp [Slice.len] at h

theorem Slice.len_eq_length {α : Type} (s : Slice α) : s.len = s.toList.length := by
  cases s <;> rfl

theorem newDiffSlackLayoutBlocks_eq (d : diff) :
    newDiffSlackLayoutBlocks d =
      Payload.blockList (d.newRooms.toList.map newRoomBlock ++
        d.updatedRoomPairs.toList.map updatedRoomBlock ++
        d.removedRooms.toList.map removedRoomBlock) := by
  unfold newDiffSlackLayoutBlocks
  simp only [foldl_append_singleton, List.nil_append]
  by_cases h1 : d.newRooms.len > 0 <;> by_cases h2 : d.updatedRoomPairs.len > 0 <;>
    by_cases h3 : d.removedRooms.len > 0 <;>
    simp [h1, h2, h3, Slice.toList_of_len_zero]

/-- C8. The payload built by `newDiffSlackLayoutBlocks(d)` holds exactly
`len(added) + len(updated) + len(removed)` blocks: one per added listing, in order, with text
"New: title\nprice layout size\nurl"; then one per updated pair, in order, with text
"Updated: new.title\nnew.price\nnew.url"; then one per removed listing, in order, with text
"Removed: title".  The url of a listing is the fixed prefix followed by its id. -/
theorem newDiffSlackLayoutBlocks_blocks (d : diff) :
    (newDiffSlackLayoutBlocks d).blocks.length =
      d.newRooms.len + d.updatedRoomPairs.len + d.removedRooms.len ∧
    (newDiffSlackLayoutBlocks d).blocks.map (fun b => b.text.text) =
      d.newRooms.toList.map (fun r =>
        "New: " ++ r.title ++ "\n" ++ r.price ++ " " ++ r.layout ++ " " ++ r.size ++ "\n"
          ++ ("https://www.fudousan.or.jp/property/detail?p_no=" ++ r.id)) ++
      d.updatedRoomPairs.toList.map (fun q =>
        "Updated: " ++ q.new.title ++ "\n" ++ q.new.price ++ "\n"
          ++ ("https://www.fudousan.or.jp/property/detail?p_no=" ++ q.new.id)) ++
      d.removedRooms.toList.map (fun r => "Removed: " ++ r.title) ∧
    (∀ r : room, r.url = "https://www.fudousan.or.jp/property/detail?p_no=" ++ r.id) := by
  rw [newDiffSlackLayoutBlocks_eq]
  refine ⟨?_, ?_, fun r => rfl⟩
  · simp [Payload.blocks, Slice.len_eq_length, Nat.add_assoc]
  · simp [Payload.blocks, newRoomBlock, updatedRoomBlock, removedRoomBlock, room.url,
      Function.comp_def]

/-! ## The formatter on the error text -/

theorem parsenumLoop_length (cs : List Char) (num : Nat) (isnum : Bool) :
    (parsenumLoop num isnum cs).2.2.length ≤ cs.length := by
  induction cs generalizing num isnum with
  | nil => simp [parsenumLoop]
  | cons c cs ih =>
    unfold parsenumLoop
    split
    · split
      · simp
      · exact Nat.le_succ_of_le (ih _ _)
    · simp

theorem skipFlags_length (cs : List Char) : (skipFlags cs).length ≤ cs.length := by
  induction cs with
  | nil => simp [skipFlags]
  | cons c cs ih =>
    unfold skipFlags
    split
    · exact Nat.le_succ_of_le ih
    · simp

theorem parseArgNumber_length (cs : List Char) : (parseArgNumber cs).1.length ≤ cs.length := by
  unfold parseArgNumber
  split
  · simp
  · simp only
    split
    · simp
    · simp

theorem argNumber_length (cs : List Char) (g : Bool) :
    (argNumber cs g).1.length ≤ cs.length := by
  unfold argNumber
  split
  · exact Nat.le_succ_of_le (parseArgNumber_length _)
  · simp

theorem widthStep_length (cs : List Char) (a g : Bool) :
    (widthStep cs a g).2.1.length ≤ cs.length := by
  unfold widthStep
  split
  · simp
  · exact parsenumLoop_length _ _ _

theorem precisionStep_length (cs : List Char) (a g : Bool) :
    (precisionStep cs a g).2.1.length ≤ cs.length := by
  unfold precisionStep
  split
  · rename_i rest
    have h1 := argNumber_length rest (g && !a)
    simp only
    split
    · rename_i rest2 heq
      rw [heq] at h1
      simp only [List.length_cons] at h1 ⊢
      omega
    · have h2 := parsenumLoop_length (argNumber rest (g && !a)).1 0 false
      simp only [List.length_cons, parsenum]
      omega
  · simp

theorem verbStep_length (cs : List Char) (g : Bool) : (verbStep cs g).2.length ≤ cs.length := by
  unfold verbStep
  split
  · simp
  · split
    · simp
    · split <;> simp

theorem directive_length (cs : List Char) : (directive cs).2.length ≤ cs.length := by
  unfold directive
  simp only
  have h1 := skipFlags_length cs
  have h2 := argNumber_length (skipFlags cs) true
  have h3 := widthStep_length (argNumber (skipFlags cs) true).1 (argNumber (skipFlags cs) true).2.1
    (argNumber (skipFlags cs) true).2.2
  generalize widthStep (argNumber (skipFlags cs) true).1 (argNumber (skipFlags cs) true).2.1
    (argNumber (skipFlags cs) true).2.2 = w at h3 ⊢
  have h4 := precisionStep_length w.2.1 w.2.2.1 w.2.2.2
  generalize precisionStep w.2.1 w.2.2.1 w.2.2.2 = p at h4 ⊢
  have h5 := argNumber_length p.2.1 p.2.2.2
  split
  · have h6 := verbStep_length (argNumber p.2.1 p.2.2.2).1 (argNumber p.2.1 p.2.2.2).2.2
    omega
  · have h6 := verbStep_length p.2.1 p.2.2.2
    simp only
    omega

/-- The format loop never stops for lack of rounds: with at least as many rounds as the
format has characters the result does not depend on the number of rounds. -/
theorem doPrintf_rounds (n k : Nat) (cs : List Char) (hn : cs.length ≤ n) (hk : cs.length ≤ k) :
    doPrintf n cs = doPrintf k cs := by
  induction n generalizing k cs with
  | zero =>
    have : cs = [] := List.length_eq_zero.1 (Nat.le_zero.1 hn)
    subst this
    cases k <;> rfl
  | succ n ih =>
    cases cs with
    | nil => cases k <;> rfl
    | cons c cs =>
      cases k with
      | zero => simp at hk
      | succ k =>
        simp only [List.length_cons, Nat.add_le_add_iff_right] at hn hk
        unfold doPrintf
        split
        · have h := directive_length cs
          simp only
          rw [ih k (directive cs).2 (by omega) (by omega)]
        · rw [ih k cs hn hk]

theorem Sprintf_rounds (format : String) (n : Nat) (hn : format.length ≤ n) :
    doPrintf n format.toList = Sprintf format :=
  doPrintf_rounds n format.length format.toList hn (Nat.le_refl _)

theorem doPrintf_of_no_percent (n : Nat) (cs : List Char) (hn : cs.length ≤ n)
    (h : '%' ∉ cs) : doPrintf n cs = String.mk cs := by
  induction cs generalizing n with
  | nil => cases n <;> rfl
  | cons c cs ih =>
    cases n with
    | zero => simp at hn
    | succ n =>
      simp only [List.length_cons, Nat.add_le_add_iff_right] at hn
      simp only [List.mem_cons, not_or] at h
      unfold doPrintf
      rw [if_neg (fun h2 => h.1 h2.symm), ih n hn h.2]
      rfl

/-- An error text without a percent sign reaches the payload unchanged. -/
theorem notifyErrorPayload_of_no_percent (err : String) (h : '%' ∉ err.toList) :
    (notifyErrorPayload err).blocks.map (fun b => b.text.text) = [err] := by
  simp only [notifyErrorPayload, Payload.blocks, List.map_cons, List.map_nil, Sprintf]
  rw [doPrintf_of_no_percent err.length err.toList (Nat.le_refl _) h]
  rfl

/-- C9, evaluated on error texts that contain a percent sign: the text of the block is not
the error's text.  A trailing percent sign is reported as a missing verb, and a percent sign
followed by a letter as a verb with a missing operand; the mangled text is what `NotifyError`
delivers to the webhook. -/
theorem notifyErrorPayload_percent :
    (notifyErrorPayload "50%").blocks.map (fun b => b.text.text) = ["50%!(NOVERB)"] ∧
    (notifyErrorPayload "quota at 100% of limit").blocks.map (fun b => b.text.text) =
      ["quota at 100%!o(MISSING)f limit"] ∧
    (notifyErrorPayload "Get \"http://h/?q=%E6\": EOF").blocks.map (fun b => b.text.text) =
      ["Get \"http://h/?q=%!E(MISSING)6\": EOF"] ∧
    (NotifyError (storeWorld (Except.ok []) none none none) "50%" (Store.mk [] [])).2.posted =
      [Payload.singleBlock (Block.mk "section" (TextObject.mk "mrkdwn" "50%!(NOVERB)"))] := by
  decide

/-! ## The properties at concrete inputs -/

theorem detectDiff_common_id_witness :
    (ids [roomA, roomB]).Nodup ∧ (ids [roomB, roomAOld]).Nodup ∧
    roomA ∈ [roomA, roomB] ∧ roomAOld ∈ [roomB, roomAOld] ∧ roomA.id = roomAOld.id ∧
    roomA.id ∉ ids (addedOf (detectDiff MapOrder.reversed [roomA, roomB] [roomB, roomAOld])) ∧
    roomA.id ∉ ids (removedOf (detectDiff MapOrder.reversed [roomA, roomB] [roomB, roomAOld])) ∧
    pairsWithId roomA.id
        (updatedOf (detectDiff MapOrder.reversed [roomA, roomB] [roomB, roomAOld])) =
      [roomPair.mk roomA roomAOld] :=
  ⟨by decide, by decide, by decide, by decide, rfl,
    (detectDiff_common_id MapOrder.reversed [roomA, roomB] [roomB, roomAOld] roomA roomAOld
      (by decide) (by decide) (by decide) (by decide) rfl).1,
    (detectDiff_common_id MapOrder.reversed [roomA, roomB] [roomB, roomAOld] roomA roomAOld
      (by decide) (by decide) (by decide) (by decide) rfl).2.1,
    (detectDiff_common_id MapOrder.reversed [roomA, roomB] [roomB, roomAOld] roomA roomAOld
      (by decide) (by decide) (by decide) (by decide) rfl).2.2.1 (Or.inr (Or.inl (by decide)))⟩

theorem detectDiff_disjoint_witness :
    (ids [roomA]).Nodup ∧ (ids [roomB]).Nodup ∧ (∀ k ∈ ids [roomA], k ∉ ids [roomB]) ∧
    addedOf (detectDiff MapOrder.stored [roomA] [roomB]) = [roomA] ∧
    updatedOf (detectDiff MapOrder.stored [roomA] [roomB]) = [] ∧
    (removedOf (detectDiff MapOrder.stored [roomA] [roomB])).Perm [roomB] :=
  ⟨by decide, by decide, by decide,
    (detectDiff_disjoint MapOrder.stored [roomA] [roomB] (by decide) (by decide) (by decide)).1,
    (detectDiff_disjoint MapOrder.stored [roomA] [roomB] (by decide) (by decide) (by decide)).2.1,
    (detectDiff_disjoint MapOrder.stored [roomA] [roomB] (by decide) (by decide)
      (by decide)).2.2.1⟩

theorem detectDiff_self_perm_witness :
    (ids [roomA, roomB]).Nodup ∧ [roomB, roomA].Perm [roomA, roomB] ∧
    detectDiff MapOrder.reversed [roomA, roomB] [roomB, roomA] = none :=
  ⟨by decide, List.Perm.swap roomA roomB [],
    detectDiff_self_perm MapOrder.reversed [roomA, roomB] [roomB, roomA] (by decide)
      (List.Perm.swap roomA roomB [])⟩

theorem detectDiff_previous_order_witness :
    (ids [roomAOld, roomB]).Nodup ∧ [roomB, roomAOld].Perm [roomAOld, roomB] ∧
    ((detectDiff MapOrder.reversed [roomA] [roomB, roomAOld] = none ∧
        detectDiff MapOrder.stored [roomA] [roomAOld, roomB] = none) ∨
      (∃ d2 d : diff, detectDiff MapOrder.reversed [roomA] [roomB, roomAOld] = some d2 ∧
        detectDiff MapOrder.stored [roomA] [roomAOld, roomB] = some d ∧
        d2.newRooms = d.newRooms ∧ d2.updatedRoomPairs = d.updatedRoomPairs ∧
        d2.removedRooms.toList.Perm d.removedRooms.toList)) :=
  ⟨by decide, List.Perm.swap roomAOld roomB [],
    detectDiff_previous_order MapOrder.stored MapOrder.reversed [roomA] [roomAOld, roomB]
      [roomB, roomAOld] (by decide) (List.Perm.swap roomAOld roomB [])⟩

theorem detectDiff_nil_iff_all_empty_witness :
    detectDiff MapOrder.stored [roomA] [] = some (diff.mk (some [roomA]) none none) ∧
    ¬ ((diff.mk (some [roomA]) none none).newRooms.len = 0 ∧
      (diff.mk (some [roomA]) none none).updatedRoomPairs.len = 0 ∧
      (diff.mk (some [roomA]) none none).removedRooms.len = 0) :=
  ⟨by decide,
    (detectDiff_nil_iff_all_empty MapOrder.stored [roomA] []).2.2.2
      (diff.mk (some [roomA]) none none) (by decide)⟩

theorem detectDiff_duplicate_id_witness :
    2 ≤ (occurrences "1" [roomA, roomB, roomAOld]).length ∧
    "1" ∈ ids [roomAOld] ∧
    occurrences "1" (addedOf (detectDiff MapOrder.stored [roomA, roomB, roomAOld] [roomAOld])) =
      (occurrences "1" [roomA, roomB, roomAOld]).tail ∧
    detectDiff MapOrder.stored [roomA, roomB, roomAOld] [roomA, roomB, roomAOld] ≠ none :=
  ⟨by decide, by decide,
    (detectDiff_duplicate_id MapOrder.stored [roomA, roomB, roomAOld] [roomAOld] "1"
      (by decide)).2.1 (by decide),
    (detectDiff_duplicate_id MapOrder.stored [roomA, roomB, roomAOld] [roomAOld] "1"
      (by decide)).2.2⟩

theorem Execute_notify_then_save_witness :
    detectDiff MapOrder.stored [roomA] [roomAOld] =
      some (diff.mk none (some [roomPair.mk roomA roomAOld]) none) ∧
    (Execute (storeWorld (Except.ok [roomA]) none (some "timeout") (some "quota"))
        MapOrder.stored "u" (Store.mk [roomAOld] [])).calls =
      [Call.fetchAllRooms "u", Call.loadPreviousRooms,
        Call.notifyDiff (diff.mk none (some [roomPair.mk roomA roomAOld]) none),
        Call.saveRooms [roomA]] ∧
    (Execute (storeWorld (Except.ok [roomA]) none (some "timeout") (some "quota"))
        MapOrder.stored "u" (Store.mk [roomAOld] [])).err =
      some "failed to notify diff: timeout\nfailed to save rooms: quota" :=
  ⟨by decide,
    (Execute_notify_then_save (storeWorld (Except.ok [roomA]) none (some "timeout") (some "quota"))
      MapOrder.stored "u" (Store.mk [roomAOld] []) (Store.mk [roomAOld] [])
      (Store.mk [roomAOld] []) [roomA] [roomAOld]
      (diff.mk none (some [roomPair.mk roomA roomAOld]) none) rfl rfl (by decide)).1,
    (Execute_notify_then_save (storeWorld (Except.ok [roomA]) none (some "timeout") (some "quota"))
      MapOrder.stored "u" (Store.mk [roomAOld] []) (Store.mk [roomAOld] [])
      (Store.mk [roomAOld] []) [roomA] [roomAOld]
      (diff.mk none (some [roomPair.mk roomA roomAOld]) none) rfl rfl (by decide)).2.2.2⟩

theorem Execute_without_effect_witness :
    ((Execute (storeWorld (Except.ok [roomA, roomB]) none none none) MapOrder.stored "u"
        (Store.mk [roomB, roomA] [])).err = none ∧
      (Execute (storeWorld (Except.ok [roomA, roomB]) none none none) MapOrder.stored "u"
        (Store.mk [roomB, roomA] [])).calls = [Call.fetchAllRooms "u", Call.loadPreviousRooms] ∧
      (Execute (storeWorld (Except.ok [roomA, roomB]) none none none) MapOrder.stored "u"
        (Store.mk [roomB, roomA] [])).world = Store.mk [roomB, roomA] []) ∧
    ((Execute (storeWorld (Except.error "EOF") none none none) MapOrder.stored "u"
        (Store.mk [roomB] [])).err = some ("failed to fetch rooms: " ++ "EOF") ∧
      (Execute (storeWorld (Except.error "EOF") none none none) MapOrder.stored "u"
        (Store.mk [roomB] [])).calls = [Call.fetchAllRooms "u"] ∧
      (Execute (storeWorld (Except.error "EOF") none none none) MapOrder.stored "u"
        (Store.mk [roomB] [])).world = Store.mk [roomB] []) ∧
    ((Execute (storeWorld (Except.ok [roomA]) (some "denied") none none) MapOrder.stored "u"
        (Store.mk [roomB] [])).err = some ("failed to load previous rooms: " ++ "denied") ∧
      (Execute (storeWorld (Except.ok [roomA]) (some "denied") none none) MapOrder.stored "u"
        (Store.mk [roomB] [])).calls = [Call.fetchAllRooms "u", Call.loadPreviousRooms] ∧
      (Execute (storeWorld (Except.ok [roomA]) (some "denied") none none) MapOrder.stored "u"
        (Store.mk [roomB] [])).world = Store.mk [roomB] []) :=
  ⟨(Execute_without_effect (storeWorld (Except.ok [roomA, roomB]) none none none)
      MapOrder.stored "u" (Store.mk [roomB, roomA] [])).1 [roomA, roomB] [roomB, roomA]
      (Store.mk [roomB, roomA] []) (Store.mk [roomB, roomA] []) rfl rfl (by decide),
    (Execute_without_effect (storeWorld (Except.error "EOF") none none none)
      MapOrder.stored "u" (Store.mk [roomB] [])).2.1 "EOF" (Store.mk [roomB] []) rfl,
    (Execute_without_effect (storeWorld (Except.ok [roomA]) (some "denied") none none)
      MapOrder.stored "u" (Store.mk [roomB] [])).2.2.1 [roomA] "denied" (Store.mk [roomB] [])
      (Store.mk [roomB] []) rfl rfl⟩

end RoomCrawler
